import Mathlib

/-!
Shallow embedding of `scripts/update_can_ips.py`.

The script is a fetch-transform-splice pipeline:
fetch announced prefixes per ASN, deduplicate subnets, format rule
lines, and splice them into named sections of a text file.

Python values are modelled as follows: an `ipaddress` network object
becomes a `Network` record carrying its IP `version`, numeric
`network_address` (`addr`) and `prefixlen`; Python `str` is Lean
`String`; Python lists are Lean lists; a raised exception is the
`Except.error` branch of `Except`.
-/

/-- Model of an `ipaddress` network object: `version` is the IP version
(4 or 6), `addr` the numeric value of `network_address`, and
`prefixlen` the prefix length. -/
@[ext]
structure Network where
  version : Nat
  addr : Nat
  prefixlen : Nat
deriving DecidableEq, Repr

/-- Address width of an IP version: `max_prefixlen` in `ipaddress`
(32 for IPv4, 128 for IPv6). -/
def maxPrefixlen (v : Nat) : Nat := if v = 4 then 32 else 128

/-- Number of host bits of a network. -/
def Network.hostBits (n : Network) : Nat := maxPrefixlen n.version - n.prefixlen

/-- Numeric value of `broadcast_address`: the highest address of the
network's range. -/
def Network.broadcast (n : Network) : Nat := n.addr + (2 ^ n.hostBits - 1)

/-- Well-formedness of a parsed network, as guaranteed by the
`ipaddress` library: version 4 or 6, prefix length within range, the
address within the address space, and host bits masked to zero
(`ip_network(..., strict=False)` masks host bits). -/
def Network.Valid (n : Network) : Prop :=
  (n.version = 4 ∨ n.version = 6) ∧ n.prefixlen ≤ maxPrefixlen n.version ∧
    n.addr < 2 ^ maxPrefixlen n.version ∧ n.addr % 2 ^ n.hostBits = 0

/-- Model of `a.subnet_of(b)` for networks of the same version:
`b.network_address <= a.network_address and
a.broadcast_address <= b.broadcast_address` (the script only calls it
under a version-equality guard). -/
def subnetOf (a b : Network) : Bool :=
  decide (b.addr ≤ a.addr) && decide (a.broadcast ≤ b.broadcast)

/-- The inner loop test of `dedupe_subnets`: whether some kept network
of the same version has `net` as a subnet. -/
def coveredBy (net : Network) (kept : List Network) : Bool :=
  kept.any fun k => decide (net.version = k.version) && subnetOf net k

/-- The `for net in nets_sorted` loop of `dedupe_subnets`: keep a
candidate unless it is covered by an already-kept network. -/
def dedupeLoop (kept : List Network) : List Network → List Network
  | [] => kept
  | net :: rest =>
    if coveredBy net kept then dedupeLoop kept rest
    else dedupeLoop (kept ++ [net]) rest

/-- Python tuple order on the first sort key
`(n.version, n.prefixlen, int(n.network_address))`. -/
def key1 (a b : Network) : Prop :=
  a.version < b.version ∨ (a.version = b.version ∧
    (a.prefixlen < b.prefixlen ∨ (a.prefixlen = b.prefixlen ∧ a.addr ≤ b.addr)))

/-- Python tuple order on the second sort key
`(n.version, int(n.network_address), n.prefixlen)`. -/
def key2 (a b : Network) : Prop :=
  a.version < b.version ∨ (a.version = b.version ∧
    (a.addr < b.addr ∨ (a.addr = b.addr ∧ a.prefixlen ≤ b.prefixlen)))

instance : DecidableRel key1 := fun a b => by unfold key1; infer_instance

instance : DecidableRel key2 := fun a b => by unfold key2; infer_instance

/-- Model of `dedupe_subnets`: sort by (version, prefixlen, address),
greedily keep networks not covered by an earlier kept one, then re-sort
by (version, address, prefixlen). Python's `sorted` is a stable sort;
both sort keys here mention every field of the network, so the sorted
result is the unique sorted permutation and does not depend on the
sorting algorithm; we use `List.insertionSort`. -/
def dedupeSubnets (nets : List Network) : List Network :=
  List.insertionSort key2 (dedupeLoop [] (List.insertionSort key1 nets))

example :
    dedupeSubnets
      [⟨4, 10 * 2 ^ 24, 8⟩, ⟨4, 10 * 2 ^ 24 + 2 ^ 16, 16⟩, ⟨4, 3232235520, 24⟩] =
      [⟨4, 10 * 2 ^ 24, 8⟩, ⟨4, 3232235520, 24⟩] := by decide

/-- Membership of a numeric address of a given IP version in a
network's address range. -/
def memAddr (v a : Nat) (n : Network) : Prop :=
  n.version = v ∧ n.addr ≤ a ∧ a ≤ n.broadcast

/-- The relation between two kept networks that the antichain property
asserts: if they have the same IP version, neither is a subnet of the
other. -/
def acRel (a b : Network) : Prop :=
  a.version = b.version → subnetOf a b = false ∧ subnetOf b a = false

instance : IsTotal Network key1 := ⟨by intro a b; unfold key1; omega⟩

instance : IsTrans Network key1 := ⟨by intro a b c; unfold key1; omega⟩

instance : IsTotal Network key2 := ⟨by intro a b; unfold key2; omega⟩

instance : IsTrans Network key2 := ⟨by intro a b c; unfold key2; omega⟩

instance : IsAntisymm Network key2 := by
  constructor
  intro a b h1 h2
  unfold key2 at h1 h2
  ext <;> omega

instance (n : Network) : Decidable n.Valid := by
  unfold Network.Valid; infer_instance

lemma acRel_symm : Symmetric acRel := by
  intro a b h hv
  exact (h hv.symm).symm

lemma subnetOf_refl (n : Network) : subnetOf n n = true := by
  simp [subnetOf]

lemma coveredBy_of_mem {net : Network} {kept : List Network}
    (h : net ∈ kept) : coveredBy net kept = true := by
  simp only [coveredBy, List.any_eq_true]
  exact ⟨net, h, by simp [subnetOf_refl]⟩

lemma mem_dedupeLoop_of_mem :
    ∀ (l kept : List Network), ∀ k ∈ kept, k ∈ dedupeLoop kept l := by
  intro l
  induction l with
  | nil => intro kept k hk; simpa [dedupeLoop] using hk
  | cons net rest ih =>
    intro kept k hk
    by_cases hc : coveredBy net kept = true
    · simpa [dedupeLoop, hc] using ih kept k hk
    · have : k ∈ kept ++ [net] := List.mem_append_left _ hk
      simpa [dedupeLoop, hc] using ih (kept ++ [net]) k this

lemma mem_of_mem_dedupeLoop :
    ∀ (l kept : List Network), ∀ x ∈ dedupeLoop kept l, x ∈ kept ∨ x ∈ l := by
  intro l
  induction l with
  | nil => intro kept x hx; exact Or.inl (by simpa [dedupeLoop] using hx)
  | cons net rest ih =>
    intro kept x hx
    by_cases hc : coveredBy net kept = true
    · rcases ih kept x (by simpa [dedupeLoop, hc] using hx) with h | h
      · exact Or.inl h
      · exact Or.inr (List.mem_cons_of_mem _ h)
    · rcases ih (kept ++ [net]) x (by simpa [dedupeLoop, hc] using hx) with h | h
      · rcases List.mem_append.mp h with h | h
        · exact Or.inl h
        · exact Or.inr (List.mem_singleton.mp h ▸ List.mem_cons_self _ _)
      · exact Or.inr (List.mem_cons_of_mem _ h)

lemma dedupeLoop_covers :
    ∀ (l kept : List Network), ∀ net ∈ l,
      ∃ k ∈ dedupeLoop kept l, net.version = k.version ∧ subnetOf net k = true := by
  intro l
  induction l with
  | nil => intro kept net hn; cases hn
  | cons hd rest ih =>
    intro kept net hn
    rcases List.mem_cons.mp hn with heq | hn
    · subst heq
      by_cases hc : coveredBy net kept = true
      · have hc0 := hc
        simp only [coveredBy, List.any_eq_true] at hc
        obtain ⟨k, hk, hkp⟩ := hc
        simp only [Bool.and_eq_true, decide_eq_true_eq] at hkp
        refine ⟨k, ?_, hkp.1, hkp.2⟩
        simpa [dedupeLoop, hc0] using mem_dedupeLoop_of_mem rest kept k hk
      · refine ⟨net, ?_, rfl, subnetOf_refl net⟩
        have hmem : net ∈ kept ++ [net] := by simp
        simpa [dedupeLoop, hc] using mem_dedupeLoop_of_mem rest (kept ++ [net]) net hmem
    · by_cases hc : coveredBy hd kept = true
      · simpa [dedupeLoop, hc] using ih kept net hn
      · simpa [dedupeLoop, hc] using ih (kept ++ [hd]) net hn

lemma acRel_of_key1 {k net : Network} (hvnet : net.Valid)
    (hkey : key1 k net)
    (hnc : ¬ (net.version = k.version ∧ subnetOf net k = true)) :
    acRel k net := by
  intro hver
  have hsnk : subnetOf net k = false := by
    cases h : subnetOf net k
    · rfl
    · exact absurd ⟨hver.symm, h⟩ hnc
  refine ⟨?_, hsnk⟩
  cases h : subnetOf k net
  · rfl
  exfalso
  simp only [subnetOf, Bool.and_eq_true, decide_eq_true_eq] at h
  obtain ⟨hb1, hb2⟩ := h
  unfold key1 at hkey
  rcases hkey with hlt | ⟨hveq, hrest⟩
  · omega
  rcases hrest with hplt | ⟨hpeq, hale⟩
  · have hM : maxPrefixlen k.version = maxPrefixlen net.version := by rw [hver]
    have hple : net.prefixlen ≤ maxPrefixlen net.version := hvnet.2.1
    simp only [Network.broadcast, Network.hostBits] at hb2
    rw [hM] at hb2
    have hlt2 : 2 ^ (maxPrefixlen net.version - net.prefixlen) <
        2 ^ (maxPrefixlen net.version - k.prefixlen) :=
      Nat.pow_lt_pow_right one_lt_two (by omega)
    have hpos : 0 < 2 ^ (maxPrefixlen net.version - net.prefixlen) :=
      Nat.pos_pow_of_pos _ (by omega)
    omega
  · have hkeq : k = net := by ext <;> omega
    subst hkeq
    exact hnc ⟨rfl, subnetOf_refl k⟩

lemma dedupeLoop_pairwise :
    ∀ (l kept : List Network),
      (∀ n ∈ l, n.Valid) →
      l.Pairwise key1 →
      (∀ k ∈ kept, ∀ n ∈ l, key1 k n) →
      kept.Pairwise acRel →
      (dedupeLoop kept l).Pairwise acRel := by
  intro l
  induction l with
  | nil => intro kept _ _ _ hkept; simpa [dedupeLoop] using hkept
  | cons net rest ih =>
    intro kept hv hsort hcross hkept
    have hvrest : ∀ n ∈ rest, n.Valid := fun n hn => hv n (List.mem_cons_of_mem _ hn)
    by_cases hc : coveredBy net kept = true
    · have hcross' : ∀ k ∈ kept, ∀ n ∈ rest, key1 k n :=
        fun k hk n hn => hcross k hk n (List.mem_cons_of_mem _ hn)
      simpa [dedupeLoop, hc] using ih kept hvrest hsort.of_cons hcross' hkept
    · have hnc : ∀ k ∈ kept, ¬ (net.version = k.version ∧ subnetOf net k = true) := by
        intro k hk hcontra
        apply hc
        simp only [coveredBy, List.any_eq_true]
        exact ⟨k, hk, by simp [hcontra.1, hcontra.2]⟩
      have hpair : (kept ++ [net]).Pairwise acRel := by
        rw [List.pairwise_append]
        refine ⟨hkept, List.pairwise_singleton _ _, ?_⟩
        intro k hk x hx
        rw [List.mem_singleton] at hx
        subst hx
        exact acRel_of_key1 (hv x (by simp)) (hcross k hk x (by simp)) (hnc k hk)
      have hcross' : ∀ k ∈ kept ++ [net], ∀ n ∈ rest, key1 k n := by
        intro k hk n hn
        rcases List.mem_append.mp hk with h | h
        · exact hcross k h n (List.mem_cons_of_mem _ hn)
        · rw [List.mem_singleton] at h
          subst h
          exact (List.pairwise_cons.mp hsort).1 n hn
      simpa [dedupeLoop, hc] using ih (kept ++ [net]) hvrest hsort.of_cons hcross' hpair

lemma dedupeLoop_nodup :
    ∀ (l kept : List Network), kept.Nodup → (dedupeLoop kept l).Nodup := by
  intro l
  induction l with
  | nil => intro kept h; simpa [dedupeLoop] using h
  | cons net rest ih =>
    intro kept h
    by_cases hc : coveredBy net kept = true
    · simpa [dedupeLoop, hc] using ih kept h
    · have hnet : net ∉ kept := fun hmem => hc (coveredBy_of_mem hmem)
      have : (kept ++ [net]).Nodup := by
        simpa [List.nodup_append] using ⟨h, hnet⟩
      simpa [dedupeLoop, hc] using ih (kept ++ [net]) this

lemma dedupeLoop_id :
    ∀ (l kept : List Network),
      (∀ k ∈ kept, ∀ n ∈ l, ¬ (n.version = k.version ∧ subnetOf n k = true)) →
      l.Pairwise acRel →
      dedupeLoop kept l = kept ++ l := by
  intro l
  induction l with
  | nil => intro kept _ _; simp [dedupeLoop]
  | cons net rest ih =>
    intro kept hcross hpair
    have hc : coveredBy net kept = false := by
      cases h : coveredBy net kept
      · rfl
      · exfalso
        simp only [coveredBy, List.any_eq_true, Bool.and_eq_true,
          decide_eq_true_eq] at h
        obtain ⟨k, hk, hv, hs⟩ := h
        exact hcross k hk net (by simp) ⟨hv, hs⟩
    have hcross' : ∀ k ∈ kept ++ [net], ∀ n ∈ rest,
        ¬ (n.version = k.version ∧ subnetOf n k = true) := by
      intro k hk n hn hcontra
      rcases List.mem_append.mp hk with h | h
      · exact hcross k h n (List.mem_cons_of_mem _ hn) hcontra
      · rw [List.mem_singleton] at h
        subst h
        have hac := (List.pairwise_cons.mp hpair).1 n hn
        exact absurd (hac hcontra.1.symm).2 (by simp [hcontra.2])
    have := ih (kept ++ [net]) hcross' hpair.of_cons
    simp only [dedupeLoop, hc, Bool.false_eq_true, if_false, this,
      List.append_assoc, List.singleton_append]

lemma dedupeSubnets_pairwise {nets : List Network} (hv : ∀ n ∈ nets, n.Valid) :
    (dedupeSubnets nets).Pairwise acRel := by
  have hperm1 : List.Perm (List.insertionSort key1 nets) nets :=
    List.perm_insertionSort key1 nets
  have hv1 : ∀ n ∈ List.insertionSort key1 nets, n.Valid :=
    fun n hn => hv n (hperm1.mem_iff.mp hn)
  have hsort : (List.insertionSort key1 nets).Pairwise key1 :=
    List.sorted_insertionSort key1 nets
  have hloop := dedupeLoop_pairwise (List.insertionSort key1 nets) [] hv1 hsort
    (by simp) (by simp)
  exact ((List.perm_insertionSort key2 _).pairwise_iff (fun hab => acRel_symm hab)).mpr hloop

/-- C1: for every list of valid input networks, the output of
`dedupe_subnets` is an antichain under containment: for all pairs of
kept networks of the same IP version, neither is a subnet of the
other. -/
theorem dedupe_antichain (nets : List Network) (hv : ∀ n ∈ nets, n.Valid) :
    (dedupeSubnets nets).Pairwise
      (fun a b => a.version = b.version →
        subnetOf a b = false ∧ subnetOf b a = false) :=
  dedupeSubnets_pairwise hv

theorem dedupe_antichain_witness :
    (dedupeSubnets
        [⟨4, 167772160, 8⟩, ⟨4, 167837696, 16⟩, ⟨4, 3232235520, 24⟩]).Pairwise
      (fun a b => a.version = b.version →
        subnetOf a b = false ∧ subnetOf b a = false) :=
  dedupe_antichain _ (by decide)

/-- C2: the union of address ranges of the dedup stage's output equals
the union of address ranges of its input: every kept network is one of
the inputs, and an address of some IP version is covered by an input
network exactly when it is covered by a kept network. -/
lemma dedupeSubnets_subset (nets : List Network) :
    ∀ k ∈ dedupeSubnets nets, k ∈ nets := by
  intro k hk
  have hk1 : k ∈ dedupeLoop [] (List.insertionSort key1 nets) :=
    (List.perm_insertionSort key2 _).mem_iff.mp hk
  rcases mem_of_mem_dedupeLoop _ [] k hk1 with h | h
  · cases h
  · exact (List.perm_insertionSort key1 nets).mem_iff.mp h

theorem dedupe_coverage (nets : List Network) :
    (∀ k ∈ dedupeSubnets nets, k ∈ nets) ∧
    (∀ v a, (∃ n ∈ nets, memAddr v a n) ↔ ∃ k ∈ dedupeSubnets nets, memAddr v a k) := by
  have hmemout := dedupeSubnets_subset nets
  refine ⟨hmemout, ?_⟩
  intro v a
  constructor
  · rintro ⟨n, hn, hmem⟩
    have hn1 : n ∈ List.insertionSort key1 nets :=
      (List.perm_insertionSort key1 nets).mem_iff.mpr hn
    obtain ⟨k, hk, hver, hsub⟩ := dedupeLoop_covers _ [] n hn1
    refine ⟨k, (List.perm_insertionSort key2 _).mem_iff.mpr hk, ?_⟩
    simp only [subnetOf, Bool.and_eq_true, decide_eq_true_eq] at hsub
    exact ⟨hver ▸ hmem.1, le_trans hsub.1 hmem.2.1, le_trans hmem.2.2 hsub.2⟩
  · rintro ⟨k, hk, hmem⟩
    exact ⟨k, hmemout k hk, hmem⟩

/-- C10: the dedup stage also removes exact duplicates: no network
appears more than once in the output of `dedupe_subnets`. -/
theorem dedupe_nodup (nets : List Network) : (dedupeSubnets nets).Nodup := by
  have h1 : (dedupeLoop [] (List.insertionSort key1 nets)).Nodup :=
    dedupeLoop_nodup _ [] List.nodup_nil
  exact ((List.perm_insertionSort key2 _).nodup_iff).mpr h1

/-- C3: the dedup stage is idempotent: applying `dedupe_subnets` to its
own output yields the same list (same set, same order) as applying it
once. -/
theorem dedupe_idempotent (nets : List Network) (hv : ∀ n ∈ nets, n.Valid) :
    dedupeSubnets (dedupeSubnets nets) = dedupeSubnets nets := by
  have hpair : (dedupeSubnets nets).Pairwise acRel := dedupeSubnets_pairwise hv
  have hsorted2 : (dedupeSubnets nets).Pairwise key2 :=
    List.sorted_insertionSort key2 _
  have hperm1 : List.Perm (List.insertionSort key1 (dedupeSubnets nets)) (dedupeSubnets nets) :=
    List.perm_insertionSort key1 _
  have hpair1 : (List.insertionSort key1 (dedupeSubnets nets)).Pairwise acRel :=
    (hperm1.pairwise_iff (fun hab => acRel_symm hab)).mpr hpair
  have hloop : dedupeLoop [] (List.insertionSort key1 (dedupeSubnets nets)) =
      List.insertionSort key1 (dedupeSubnets nets) := by
    simpa using dedupeLoop_id (List.insertionSort key1 (dedupeSubnets nets)) []
      (by simp) hpair1
  have hrw : dedupeSubnets (dedupeSubnets nets) =
      List.insertionSort key2 (List.insertionSort key1 (dedupeSubnets nets)) := by
    rw [dedupeSubnets, hloop]
  rw [hrw]
  exact List.eq_of_perm_of_sorted ((List.perm_insertionSort key2 _).trans hperm1)
    (List.sorted_insertionSort key2 _) hsorted2

theorem dedupe_idempotent_witness :
    dedupeSubnets (dedupeSubnets
        [⟨4, 167772160, 8⟩, ⟨4, 167837696, 16⟩, ⟨4, 3232235520, 24⟩]) =
      dedupeSubnets [⟨4, 167772160, 8⟩, ⟨4, 167837696, 16⟩, ⟨4, 3232235520, 24⟩] :=
  dedupe_idempotent _ (by decide)

/-- Rendering of an IPv4 address as Python's `str`: the four octets in
decimal, joined by dots. -/
def ipv4String (addr : Nat) : String :=
  Nat.repr (addr / 16777216 % 256) ++ "." ++ Nat.repr (addr / 65536 % 256) ++ "." ++
    Nat.repr (addr / 256 % 256) ++ "." ++ Nat.repr (addr % 256)

/-- Lowercase hexadecimal rendering of a 16-bit group, as Python's
percent-x formatting. -/
def hexStr (n : Nat) : String := String.mk (Nat.toDigits 16 n)

/-- The scan of `_compress_hextets` in the `ipaddress` library: find
the leftmost longest run of zero hextets. Arguments: remaining
hextets, current index, best run (start, length) so far, and current
run (start, length). -/
def scanRuns : List String → Nat → Nat × Nat → Nat × Nat → Nat × Nat
  | [], _, best, _ => best
  | h :: t, i, best, cur =>
    if h = "0" then
      let cs := if cur.2 = 0 then i else cur.1
      let cl := cur.2 + 1
      scanRuns t (i + 1) (if best.2 < cl then (cs, cl) else best) (cs, cl)
    else
      scanRuns t (i + 1) best (0, 0)

/-- Model of `_compress_hextets`: replace the leftmost longest run of
two or more zero hextets by an empty marker, padding with an empty
group at either end so that joining with colons produces the double
colon. -/
def compressHextets (hx : List String) : List String :=
  let best := scanRuns hx 0 (0, 0) (0, 0)
  if 1 < best.2 then
    (if best.1 = 0 then [""] else []) ++ hx.take best.1 ++ [""] ++
      hx.drop (best.1 + best.2) ++ (if best.1 + best.2 = hx.length then [""] else [])
  else hx

/-- Rendering of an IPv6 address as Python's `str`: the eight 16-bit
groups in lowercase hexadecimal, with the longest zero run
compressed, joined by colons. -/
def ipv6String (addr : Nat) : String :=
  String.intercalate ":"
    (compressHextets ((List.range 8).map fun i => hexStr (addr / 2 ^ (16 * (7 - i)) % 65536)))

/-- Rendering of a network as Python's `str`: the address text, a
slash, and the prefix length. -/
def netString (n : Network) : String :=
  if n.version = 4 then ipv4String n.addr ++ "/" ++ Nat.repr n.prefixlen
  else ipv6String n.addr ++ "/" ++ Nat.repr n.prefixlen

/-- Model of `build_lines` after CIDR parsing: the script parses each
prefix string with `ipaddress.ip_network(p, strict=False)` (library
code, represented here by the resulting network values), deduplicates,
and renders each kept network as one rule line. -/
def buildLines (nets : List Network) : List String :=
  (dedupeSubnets nets).map fun net =>
    if net.version = 4 then "IP-CIDR," ++ netString net ++ ",no-resolve"
    else "IP-CIDR6," ++ netString net ++ ",no-resolve"

example : ipv4String 167772160 = "10.0.0.0" := rfl

example : ipv6String (8193 * 2 ^ 112 + 3512 * 2 ^ 96) = "2001:db8::" := rfl

example : ipv6String 0 = "::" := rfl

example : ipv6String 1 = "::1" := rfl

example :
    buildLines [⟨4, 167772160, 8⟩, ⟨4, 167837696, 16⟩, ⟨4, 3232235520, 24⟩] =
      ["IP-CIDR,10.0.0.0/8,no-resolve", "IP-CIDR,192.168.0.0/24,no-resolve"] := rfl

lemma no_tag4_in_tag6 (s : String) :
    ¬ ("IP-CIDR,".data <+: ("IP-CIDR6," ++ s).data) := by
  rintro ⟨t, ht⟩
  have e1 : "IP-CIDR,".data = ['I', 'P', '-', 'C', 'I', 'D', 'R', ','] := rfl
  have e2 : "IP-CIDR6,".data = ['I', 'P', '-', 'C', 'I', 'D', 'R', '6', ','] := rfl
  rw [String.data_append, e1, e2] at ht
  simp at ht

lemma no_tag6_in_tag4 (s : String) :
    ¬ ("IP-CIDR6,".data <+: ("IP-CIDR," ++ s).data) := by
  rintro ⟨t, ht⟩
  have e1 : "IP-CIDR,".data = ['I', 'P', '-', 'C', 'I', 'D', 'R', ','] := rfl
  have e2 : "IP-CIDR6,".data = ['I', 'P', '-', 'C', 'I', 'D', 'R', '6', ','] := rfl
  rw [String.data_append, e1, e2] at ht
  simp at ht

/-- C4: every line emitted by the formatter ends with `,no-resolve`,
and it starts with `IP-CIDR,` exactly when the corresponding kept
network is IPv4 and with `IP-CIDR6,` exactly when it is IPv6: the
rule-tag text always matches the network's IP version. -/
theorem buildLines_format (nets : List Network) (hv : ∀ n ∈ nets, n.Valid) :
    ∀ i (h1 : i < (buildLines nets).length) (h2 : i < (dedupeSubnets nets).length),
      (",no-resolve".data <:+ ((buildLines nets).get ⟨i, h1⟩).data) ∧
      (((dedupeSubnets nets).get ⟨i, h2⟩).version = 4 ↔
        "IP-CIDR,".data <+: ((buildLines nets).get ⟨i, h1⟩).data) ∧
      (((dedupeSubnets nets).get ⟨i, h2⟩).version = 6 ↔
        "IP-CIDR6,".data <+: ((buildLines nets).get ⟨i, h1⟩).data) := by
  intro i h1 h2
  have hmem : (dedupeSubnets nets).get ⟨i, h2⟩ ∈ dedupeSubnets nets :=
    List.get_mem _ _ _
  have hval : ((dedupeSubnets nets).get ⟨i, h2⟩).Valid :=
    hv _ (dedupeSubnets_subset nets _ hmem)
  have hline : (buildLines nets).get ⟨i, h1⟩ =
      (if ((dedupeSubnets nets).get ⟨i, h2⟩).version = 4 then
        "IP-CIDR," ++ netString ((dedupeSubnets nets).get ⟨i, h2⟩) ++ ",no-resolve"
      else
        "IP-CIDR6," ++ netString ((dedupeSubnets nets).get ⟨i, h2⟩) ++ ",no-resolve") := by
    simp [buildLines, List.get_eq_getElem]
  rw [hline]
  set N := (dedupeSubnets nets).get ⟨i, h2⟩ with hN
  by_cases h4 : N.version = 4
  · rw [if_pos h4]
    refine ⟨⟨("IP-CIDR," ++ netString N).data, by simp⟩, ?_, ?_⟩
    · exact ⟨fun _ => ⟨(netString N ++ ",no-resolve").data, by simp⟩, fun _ => h4⟩
    · constructor
      · intro h6; rw [h4] at h6; cases h6
      · intro hcontra
        exact absurd hcontra (no_tag6_in_tag4 (netString N ++ ",no-resolve"))
  · rw [if_neg h4]
    have h6 : N.version = 6 := by
      rcases hval.1 with h | h
      · exact absurd h h4
      · exact h
    refine ⟨⟨("IP-CIDR6," ++ netString N).data, by simp⟩, ?_, ?_⟩
    · constructor
      · intro hcontra; exact absurd hcontra h4
      · intro hcontra
        exact absurd hcontra (no_tag4_in_tag6 (netString N ++ ",no-resolve"))
    · exact ⟨fun _ => ⟨(netString N ++ ",no-resolve").data, by simp⟩, fun _ => h6⟩

theorem buildLines_format_witness :
    (",no-resolve".data <:+ ((buildLines [⟨4, 0, 0⟩]).get ⟨0, by decide⟩).data) ∧
    (((dedupeSubnets [⟨4, 0, 0⟩]).get ⟨0, by decide⟩).version = 4 ↔
      "IP-CIDR,".data <+: ((buildLines [⟨4, 0, 0⟩]).get ⟨0, by decide⟩).data) ∧
    (((dedupeSubnets [⟨4, 0, 0⟩]).get ⟨0, by decide⟩).version = 6 ↔
      "IP-CIDR6,".data <+: ((buildLines [⟨4, 0, 0⟩]).get ⟨0, by decide⟩).data) :=
  buildLines_format [⟨4, 0, 0⟩] (by decide) 0 (by decide) (by decide)

/-- Python exception classes raised by the script: `SystemExit` (raised
by `raise SystemExit(...)`, not a subclass of `Exception`) and ordinary
`Exception`-derived errors (network failures, JSON decode errors,
parse errors, attribute errors). -/
inductive PyError where
  | systemExit (msg : String)
  | exception (msg : String)
deriving DecidableEq, Repr

/-- Model of Python `str.startswith`: the argument's character sequence
is an initial segment of the string's character sequence. -/
def pyStartsWith (s p : String) : Bool := p.data.isPrefixOf s.data

/-- Model of Python `list.index` restricted to its successful result:
the index of the first element equal to the target, if any. -/
def indexOfLine : List String → String → Option Nat
  | [], _ => none
  | l :: ls, t => if l = t then some 0 else (indexOfLine ls t).map (· + 1)

/-- The `while end_idx < len(lines) and not lines[end_idx].startswith("# ")`
scan of `replace_section`: first index at or after `i` whose line starts
with the header marker, or the length of the list. -/
def sectionEnd (lines : List String) (i : Nat) : Nat :=
  if h : i < lines.length then
    if pyStartsWith lines[i] "# " then i else sectionEnd lines (i + 1)
  else i
termination_by lines.length - i

/-- Model of `replace_section`: locate the exact header line
`# <header>` (first occurrence), scan to the next header line or end
of file, and replace the span in between with the new block followed
by one blank line. A missing header raises
`SystemExit("Missing section header: ...")`. -/
def replaceSection (lines : List String) (header : String) (newBlock : List String) :
    Except PyError (List String) :=
  let headerLine := "# " ++ header
  match indexOfLine lines headerLine with
  | none => Except.error (PyError.systemExit ("Missing section header: " ++ headerLine))
  | some start =>
    Except.ok (lines.take (start + 1) ++ newBlock ++ [""] ++
      lines.drop (sectionEnd lines (start + 1)))

lemma pyStartsWith_header (s : String) : pyStartsWith ("# " ++ s) "# " = true := by
  have e : "# ".data = ['#', ' '] := rfl
  unfold pyStartsWith
  rw [String.data_append, e]
  simp [List.isPrefixOf]

lemma pyStartsWith_empty : pyStartsWith "" "# " = false := rfl

lemma ne_header_of_not_marker {l s : String} (h : pyStartsWith l "# " = false) :
    l ≠ "# " ++ s := by
  intro he
  rw [he, pyStartsWith_header] at h
  cases h

lemma indexOfLine_eq_none {t : String} {l : List String} (h : t ∉ l) :
    indexOfLine l t = none := by
  induction l with
  | nil => rfl
  | cons x xs ih =>
    have hx : x ≠ t := fun he => h (he ▸ List.mem_cons_self _ _)
    simp [indexOfLine, hx, ih (fun hm => h (List.mem_cons_of_mem _ hm))]

lemma indexOfLine_append (t : String) (pre rest : List String) (hnot : t ∉ pre) :
    indexOfLine (pre ++ t :: rest) t = some pre.length := by
  induction pre with
  | nil => simp [indexOfLine]
  | cons p ps ih =>
    have hp : p ≠ t := fun he => hnot (he ▸ List.mem_cons_self _ _)
    simp [indexOfLine, hp, ih (fun hm => hnot (List.mem_cons_of_mem _ hm))]

lemma sectionEnd_spec :
    ∀ (mid : List String) (pre post : List String),
      (∀ l ∈ mid, pyStartsWith l "# " = false) →
      (post = [] ∨ ∃ x xs, post = x :: xs ∧ pyStartsWith x "# " = true) →
      sectionEnd (pre ++ mid ++ post) pre.length = pre.length + mid.length := by
  intro mid
  induction mid with
  | nil =>
    intro pre post _ hpost
    rcases hpost with rfl | ⟨x, xs, rfl, hx⟩
    · unfold sectionEnd
      rw [dif_neg (by simp)]
      simp
    · rw [show pre ++ [] ++ x :: xs = pre ++ x :: xs from by simp]
      have hlen : pre.length < (pre ++ x :: xs).length := by simp
      have hget : (pre ++ x :: xs)[pre.length] = x := by
        rw [List.getElem_append_right (Nat.le_refl _)]
        simp
      unfold sectionEnd
      rw [dif_pos hlen, hget, if_pos hx]
      simp
  | cons m ms ih =>
    intro pre post hmid hpost
    rw [show pre ++ (m :: ms) ++ post = pre ++ m :: (ms ++ post) from by simp]
    have hlen : pre.length < (pre ++ m :: (ms ++ post)).length := by simp
    have hget : (pre ++ m :: (ms ++ post))[pre.length] = m := by
      rw [List.getElem_append_right (Nat.le_refl _)]
      simp
    unfold sectionEnd
    rw [dif_pos hlen, hget,
      if_neg (by simp [hmid m (List.mem_cons_self _ _)])]
    rw [show pre ++ m :: (ms ++ post) = (pre ++ [m]) ++ ms ++ post from by simp]
    rw [show pre.length + 1 = (pre ++ [m]).length from by simp]
    rw [ih (pre ++ [m]) post (fun l hl => hmid l (List.mem_cons_of_mem _ hl)) hpost]
    simp
    omega

lemma replaceSection_eq (pre mid post : List String) (header : String) (blk : List String)
    (hpre : ("# " ++ header) ∉ pre)
    (hmid : ∀ l ∈ mid, pyStartsWith l "# " = false)
    (hpost : post = [] ∨ ∃ x xs, post = x :: xs ∧ pyStartsWith x "# " = true) :
    replaceSection (pre ++ ("# " ++ header) :: (mid ++ post)) header blk =
      Except.ok (pre ++ ("# " ++ header) :: (blk ++ [""] ++ post)) := by
  have hidx := indexOfLine_append ("# " ++ header) pre (mid ++ post) hpre
  have hse : sectionEnd (pre ++ ("# " ++ header) :: (mid ++ post)) (pre.length + 1) =
      pre.length + 1 + mid.length := by
    have h := sectionEnd_spec mid (pre ++ ["# " ++ header]) post hmid hpost
    simp only [List.append_assoc, List.singleton_append, List.length_append,
      List.length_singleton] at h
    simpa using h
  have htake : (pre ++ ("# " ++ header) :: (mid ++ post)).take (pre.length + 1) =
      pre ++ ["# " ++ header] := by
    rw [show pre ++ ("# " ++ header) :: (mid ++ post) =
      (pre ++ ["# " ++ header]) ++ (mid ++ post) from by simp]
    rw [List.take_left' (by simp)]
  have hdrop : (pre ++ ("# " ++ header) :: (mid ++ post)).drop
      (pre.length + 1 + mid.length) = post := by
    rw [show pre ++ ("# " ++ header) :: (mid ++ post) =
      ((pre ++ ["# " ++ header]) ++ mid) ++ post from by simp]
    rw [List.drop_left' (by simp; omega)]
  simp only [replaceSection, hidx, hse, htake, hdrop]
  simp

/-- C5: for a line list decomposed around the header line `# <header>`
(every earlier line differs from it, no body line starts with `# `, and
the remainder is empty or starts with a `# `-marked line),
`replace_section` keeps everything up to and including the header and
everything from the next header onward, and replaces only the body with
the new block followed by exactly one blank line. -/
theorem replaceSection_splice (pre mid post : List String) (header : String)
    (blk : List String)
    (hpre : ("# " ++ header) ∉ pre)
    (hmid : ∀ l ∈ mid, pyStartsWith l "# " = false)
    (hpost : post = [] ∨ ∃ x xs, post = x :: xs ∧ pyStartsWith x "# " = true) :
    replaceSection (pre ++ ("# " ++ header) :: (mid ++ post)) header blk =
      Except.ok (pre ++ ("# " ++ header) :: (blk ++ [""] ++ post)) :=
  replaceSection_eq pre mid post header blk hpre hmid hpost

theorem replaceSection_splice_witness :
    replaceSection (["x,y"] ++ ("# " ++ "Foo") :: (["old,line"] ++ ["# Bar"]))
        "Foo" ["new,line"] =
      Except.ok (["x,y"] ++ ("# " ++ "Foo") :: (["new,line"] ++ [""] ++ ["# Bar"])) :=
  replaceSection_splice ["x,y"] ["old,line"] ["# Bar"] "Foo" ["new,line"]
    (by decide) (by decide) (Or.inr ⟨"# Bar", [], rfl, rfl⟩)

lemma header_ne {A B : String} (h : A ≠ B) : ("# " ++ A) ≠ ("# " ++ B) := by
  intro he
  apply h
  have hd := congrArg String.data he
  rw [String.data_append, String.data_append] at hd
  have hdata : A.data = B.data := List.append_cancel_left hd
  cases A
  cases B
  exact congrArg String.mk hdata

lemma marker_absent {t : String} {l : List String}
    (hl : ∀ x ∈ l, pyStartsWith x "# " = false) : ("# " ++ t) ∉ l := by
  intro hmem
  have hf := hl _ hmem
  rw [pyStartsWith_header] at hf
  cases hf

lemma header_not_mem_append {A B : String} {u rest : List String}
    (hBu : ("# " ++ B) ∉ u) (hAB : A ≠ B) (hrest : ("# " ++ B) ∉ rest) :
    ("# " ++ B) ∉ u ++ ("# " ++ A) :: rest := by
  intro h
  rcases List.mem_append.mp h with h | h
  · exact hBu h
  rcases List.mem_cons.mp h with h | h
  · exact (header_ne hAB) h.symm
  · exact hrest h

lemma post_head_marker {v : List String} (rest : List String) (x0 : String)
    (hv : v = [] ∨ ∃ x xs, v = x :: xs ∧ pyStartsWith x "# " = true) :
    v ++ ("# " ++ x0) :: rest = [] ∨
      ∃ x xs, v ++ ("# " ++ x0) :: rest = x :: xs ∧ pyStartsWith x "# " = true := by
  rcases hv with rfl | ⟨x, xs, rfl, hx⟩
  · exact Or.inr ⟨"# " ++ x0, rest, by simp, pyStartsWith_header x0⟩
  · exact Or.inr ⟨x, xs ++ ("# " ++ x0) :: rest, by simp, hx⟩

/-- C9: section replacement is order-independent across distinct
sections: on a line list holding the unique headers `# A` and `# B`
(here laid out with `# A` first; the statement covers the other order
by swapping the roles of `A` and `B`), with replacement blocks holding
no `# `-marked line, replacing section `A` then `B` gives the same
lines as replacing `B` then `A`. -/
theorem replaceSection_comm (u a v b w : List String) (A B : String)
    (blkA blkB : List String)
    (hAB : A ≠ B)
    (hAu : ("# " ++ A) ∉ u) (hBu : ("# " ++ B) ∉ u)
    (hBv : ("# " ++ B) ∉ v)
    (ha : ∀ l ∈ a, pyStartsWith l "# " = false)
    (hb : ∀ l ∈ b, pyStartsWith l "# " = false)
    (hblkA : ∀ l ∈ blkA, pyStartsWith l "# " = false)
    (hv : v = [] ∨ ∃ x xs, v = x :: xs ∧ pyStartsWith x "# " = true)
    (hw : w = [] ∨ ∃ x xs, w = x :: xs ∧ pyStartsWith x "# " = true) :
    (replaceSection (u ++ ("# " ++ A) :: (a ++ (v ++ ("# " ++ B) :: (b ++ w)))) A blkA).bind
        (fun l2 => replaceSection l2 B blkB) =
      (replaceSection (u ++ ("# " ++ A) :: (a ++ (v ++ ("# " ++ B) :: (b ++ w)))) B blkB).bind
        (fun l2 => replaceSection l2 A blkA) := by
  -- replacing A first, then B
  have h1 : replaceSection (u ++ ("# " ++ A) :: (a ++ (v ++ ("# " ++ B) :: (b ++ w)))) A blkA =
      Except.ok (u ++ ("# " ++ A) :: (blkA ++ [""] ++ (v ++ ("# " ++ B) :: (b ++ w)))) :=
    replaceSection_eq u a _ A blkA hAu ha (post_head_marker (b ++ w) B hv)
  have hrest1 : ("# " ++ B) ∉ blkA ++ [""] ++ v := by
    intro h
    rcases List.mem_append.mp h with h | h
    · rcases List.mem_append.mp h with h | h
      · exact marker_absent hblkA h
      · rw [List.mem_singleton] at h
        exact (ne_header_of_not_marker pyStartsWith_empty) h.symm
    · exact hBv h
  have hpreB1 : ("# " ++ B) ∉ u ++ ("# " ++ A) :: (blkA ++ [""] ++ v) :=
    header_not_mem_append hBu hAB hrest1
  have h2 : replaceSection ((u ++ ("# " ++ A) :: (blkA ++ [""] ++ v)) ++
        ("# " ++ B) :: (b ++ w)) B blkB =
      Except.ok ((u ++ ("# " ++ A) :: (blkA ++ [""] ++ v)) ++
        ("# " ++ B) :: (blkB ++ [""] ++ w)) :=
    replaceSection_eq _ b w B blkB hpreB1 hb hw
  -- replacing B first, then A
  have hrest2 : ("# " ++ B) ∉ a ++ v := by
    intro h
    rcases List.mem_append.mp h with h | h
    · exact marker_absent ha h
    · exact hBv h
  have hpreB2 : ("# " ++ B) ∉ u ++ ("# " ++ A) :: (a ++ v) :=
    header_not_mem_append hBu hAB hrest2
  have h3 : replaceSection ((u ++ ("# " ++ A) :: (a ++ v)) ++ ("# " ++ B) :: (b ++ w)) B blkB =
      Except.ok ((u ++ ("# " ++ A) :: (a ++ v)) ++ ("# " ++ B) :: (blkB ++ [""] ++ w)) :=
    replaceSection_eq _ b w B blkB hpreB2 hb hw
  have h4 : replaceSection (u ++ ("# " ++ A) ::
        (a ++ (v ++ ("# " ++ B) :: (blkB ++ [""] ++ w)))) A blkA =
      Except.ok (u ++ ("# " ++ A) ::
        (blkA ++ [""] ++ (v ++ ("# " ++ B) :: (blkB ++ [""] ++ w)))) :=
    replaceSection_eq u a _ A blkA hAu ha (post_head_marker (blkB ++ [""] ++ w) B hv)
  have hL : (replaceSection (u ++ ("# " ++ A) ::
        (a ++ (v ++ ("# " ++ B) :: (b ++ w)))) A blkA).bind
        (fun l2 => replaceSection l2 B blkB) =
      Except.ok ((u ++ ("# " ++ A) :: (blkA ++ [""] ++ v)) ++
        ("# " ++ B) :: (blkB ++ [""] ++ w)) := by
    rw [h1]
    simp only [Except.bind]
    rw [show u ++ ("# " ++ A) :: (blkA ++ [""] ++ (v ++ ("# " ++ B) :: (b ++ w))) =
      (u ++ ("# " ++ A) :: (blkA ++ [""] ++ v)) ++ ("# " ++ B) :: (b ++ w) from by simp]
    exact h2
  have hR : (replaceSection (u ++ ("# " ++ A) ::
        (a ++ (v ++ ("# " ++ B) :: (b ++ w)))) B blkB).bind
        (fun l2 => replaceSection l2 A blkA) =
      Except.ok (u ++ ("# " ++ A) ::
        (blkA ++ [""] ++ (v ++ ("# " ++ B) :: (blkB ++ [""] ++ w)))) := by
    rw [show u ++ ("# " ++ A) :: (a ++ (v ++ ("# " ++ B) :: (b ++ w))) =
      (u ++ ("# " ++ A) :: (a ++ v)) ++ ("# " ++ B) :: (b ++ w) from by simp]
    rw [h3]
    simp only [Except.bind]
    rw [show (u ++ ("# " ++ A) :: (a ++ v)) ++ ("# " ++ B) :: (blkB ++ [""] ++ w) =
      u ++ ("# " ++ A) :: (a ++ (v ++ ("# " ++ B) :: (blkB ++ [""] ++ w))) from by simp]
    exact h4
  rw [hL, hR]
  simp

theorem replaceSection_comm_witness :
    (replaceSection (["hdr"] ++ ("# " ++ "Foo") :: (["l1"] ++ ([] ++ ("# " ++ "Bar") ::
        (["l2"] ++ [])))) "Foo" ["A1"]).bind
        (fun l2 => replaceSection l2 "Bar" ["B1"]) =
      (replaceSection (["hdr"] ++ ("# " ++ "Foo") :: (["l1"] ++ ([] ++ ("# " ++ "Bar") ::
        (["l2"] ++ [])))) "Bar" ["B1"]).bind
        (fun l2 => replaceSection l2 "Foo" ["A1"]) :=
  replaceSection_comm ["hdr"] ["l1"] [] ["l2"] [] "Foo" "Bar" ["A1"] ["B1"]
    (by decide) (by decide) (by decide) (by decide) (by decide) (by decide)
    (by decide) (Or.inl rfl) (Or.inl rfl)

lemma pyStartsWith_tag4 (s : String) : pyStartsWith ("IP-CIDR," ++ s) "# " = false := by
  have e : "IP-CIDR,".data = ['I', 'P', '-', 'C', 'I', 'D', 'R', ','] := rfl
  have e2 : "# ".data = ['#', ' '] := rfl
  unfold pyStartsWith
  rw [String.data_append, e, e2]
  simp [List.isPrefixOf]

lemma pyStartsWith_tag6 (s : String) : pyStartsWith ("IP-CIDR6," ++ s) "# " = false := by
  have e : "IP-CIDR6,".data = ['I', 'P', '-', 'C', 'I', 'D', 'R', '6', ','] := rfl
  have e2 : "# ".data = ['#', ' '] := rfl
  unfold pyStartsWith
  rw [String.data_append, e, e2]
  simp [List.isPrefixOf]

lemma buildLines_no_marker (nets : List Network) :
    ∀ l ∈ buildLines nets, pyStartsWith l "# " = false := by
  intro l hl
  simp only [buildLines, List.mem_map] at hl
  obtain ⟨net, _, rfl⟩ := hl
  by_cases h4 : net.version = 4
  · rw [if_pos h4]
    exact pyStartsWith_tag4 _
  · rw [if_neg h4]
    exact pyStartsWith_tag6 _

/-- The per-section loop of `main`: apply each configured section's
replacement in order, threading the line list; the first failure
aborts the whole run. -/
def runSections : List String → List (String × List Network) → Except PyError (List String)
  | lines, [] => Except.ok lines
  | lines, (header, nets) :: rest =>
    match replaceSection lines header (buildLines nets) with
    | Except.error e => Except.error e
    | Except.ok lines2 => runSections lines2 rest

/-- Model of `main` on pre-fetched data: check that the target file
exists, then run every configured section replacement. `fileExists`
and `fileLines` stand for the on-disk state of
`surge/CAN-wifi-calling.list`; the network list of each section stands
for the parsed prefixes fetched for its ASNs. -/
def mainRun (fileExists : Bool) (fileLines : List String)
    (sections : List (String × List Network)) : Except PyError (List String) :=
  if fileExists then runSections fileLines sections
  else Except.error (PyError.systemExit "Missing file: surge/CAN-wifi-calling.list")

/-- The on-disk contents after a run: `main` writes the new lines only
at the very end, after all sections succeeded, so a failed run leaves
the original contents in place. -/
def diskAfter (fileLines : List String) (r : Except PyError (List String)) : List String :=
  match r with
  | Except.ok new => new
  | Except.error _ => fileLines

lemma replaceSection_not_introduce {lines l2 : List String} {header t : String}
    {blk : List String}
    (hblk : ∀ x ∈ blk, pyStartsWith x "# " = false)
    (habs : ("# " ++ t) ∉ lines)
    (hok : replaceSection lines header blk = Except.ok l2) :
    ("# " ++ t) ∉ l2 := by
  simp only [replaceSection] at hok
  cases hidx : indexOfLine lines ("# " ++ header) with
  | none => rw [hidx] at hok; cases hok
  | some start =>
    rw [hidx] at hok
    have hl2 : l2 = lines.take (start + 1) ++ blk ++ [""] ++
        lines.drop (sectionEnd lines (start + 1)) := by
      cases hok
      rfl
    intro hmem
    rw [hl2] at hmem
    rcases List.mem_append.mp hmem with h | h
    · rcases List.mem_append.mp h with h | h
      · rcases List.mem_append.mp h with h | h
        · exact habs (List.take_subset _ _ h)
        · exact marker_absent hblk h
      · rw [List.mem_singleton] at h
        exact (ne_header_of_not_marker pyStartsWith_empty) h.symm
    · exact habs (List.drop_subset _ _ h)

lemma runSections_missing :
    ∀ (sections : List (String × List Network)) (fileLines : List String)
      (header : String) (nets : List Network),
      (header, nets) ∈ sections → ("# " ++ header) ∉ fileLines →
      ∃ e, runSections fileLines sections = Except.error e := by
  intro sections
  induction sections with
  | nil => intro fileLines header nets hmem _; cases hmem
  | cons sec rest ih =>
    intro fileLines header nets hmem habs
    obtain ⟨h0, n0⟩ := sec
    rcases List.mem_cons.mp hmem with heq | hmem2
    · have hh : h0 = header := by
        cases heq
        rfl
      subst hh
      refine ⟨PyError.systemExit ("Missing section header: " ++ ("# " ++ h0)), ?_⟩
      simp only [runSections, replaceSection, indexOfLine_eq_none habs]
    · cases hrep : replaceSection fileLines h0 (buildLines n0) with
      | error e => exact ⟨e, by simp only [runSections, hrep]⟩
      | ok l2 =>
        have habs2 : ("# " ++ header) ∉ l2 :=
          replaceSection_not_introduce (buildLines_no_marker n0) habs hrep
        obtain ⟨e, he⟩ := ih l2 header nets hmem2 habs2
        exact ⟨e, by simp only [runSections, hrep, he]⟩

/-- C6: if a configured section's header line is absent from the
file's lines, the run fails fatally before the write step and the
on-disk contents are unchanged. -/
theorem missing_header_aborts (fileLines : List String)
    (sections : List (String × List Network)) (header : String) (nets : List Network)
    (hmem : (header, nets) ∈ sections)
    (habs : ("# " ++ header) ∉ fileLines) :
    (∃ e, mainRun true fileLines sections = Except.error e) ∧
      diskAfter fileLines (mainRun true fileLines sections) = fileLines := by
  obtain ⟨e, he⟩ := runSections_missing sections fileLines header nets hmem habs
  have hmain : mainRun true fileLines sections = Except.error e := by
    simp [mainRun, he]
  exact ⟨⟨e, hmain⟩, by rw [hmain]; rfl⟩

theorem missing_header_aborts_witness :
    (∃ e, mainRun true ["# Foo"] [("Baz", [])] = Except.error e) ∧
      diskAfter ["# Foo"] (mainRun true ["# Foo"] [("Baz", [])]) = ["# Foo"] :=
  missing_header_aborts ["# Foo"] [("Baz", [])] "Baz" [] (by decide) (by decide)

/-- Model of the `if __name__ == "__main__"` guard. Python's
`except Exception` clause does not catch `SystemExit` (which derives
from `BaseException`, not `Exception`): a `SystemExit` propagates to
the interpreter, which prints its message alone on the error stream
and exits with status 1. An `Exception`-derived error is caught, the
prefixed diagnostic is printed, and the `raise` re-raises it, so the
interpreter prints the traceback and exits with status 1. The result
is the pair of the error-stream lines and the exit status. -/
def topLevel (r : Except PyError (List String)) : List String × Nat :=
  match r with
  | Except.ok _ => ([], 0)
  | Except.error (PyError.systemExit m) => ([m], 1)
  | Except.error (PyError.exception m) =>
      (["update_can_ips.py failed: " ++ m, "Traceback (most recent call last):"], 1)

theorem toplevel_unprefixed_cex :
    (topLevel (mainRun true ["# Foo"] [("Baz", [])])).2 ≠ 0 ∧
      pyStartsWith ((topLevel (mainRun true ["# Foo"] [("Baz", [])])).1.headD "")
        "update_can_ips.py" = false := by
  constructor
  · decide
  · decide

/-- C8 amended: on any unhandled error the process exits with a
non-zero status; for `Exception`-derived errors the first error-stream
line is the one-line diagnostic prefixed with the program name and the
error is re-raised; for `SystemExit` errors (missing file, missing
section header) the interpreter prints the bare message without the
program-name prefix. -/
theorem toplevel_exit (r : Except PyError (List String)) :
    (∀ e, r = Except.error e → (topLevel r).2 ≠ 0) ∧
    (∀ m, r = Except.error (PyError.exception m) →
      (topLevel r).1.headD "" = "update_can_ips.py failed: " ++ m ∧
        (topLevel r).1 = ["update_can_ips.py failed: " ++ m,
          "Traceback (most recent call last):"]) ∧
    (∀ m, r = Except.error (PyError.systemExit m) → (topLevel r).1 = [m]) := by
  refine ⟨?_, ?_, ?_⟩
  · rintro e rfl
    cases e <;> simp [topLevel]
  · rintro m rfl
    simp [topLevel]
  · rintro m rfl
    simp [topLevel]

theorem toplevel_exit_witness :
    (topLevel (Except.error (PyError.systemExit
        "Missing file: surge/CAN-wifi-calling.list") : Except PyError (List String))).2 ≠ 0 :=
  (toplevel_exit (Except.error (PyError.systemExit
    "Missing file: surge/CAN-wifi-calling.list"))).1 _ rfl

/-- JSON values, as produced by `json.load`. Object keys are unique
(the parser keeps one value per key). -/
inductive Json where
  | null
  | bool (b : Bool)
  | num (n : Int)
  | str (s : String)
  | arr (elems : List Json)
  | obj (fields : List (String × Json))

/-- Lookup in a JSON object with a default, as `dict.get(key, default)`. -/
def dictGet (fields : List (String × Json)) (k : String) (d : Json) : Json :=
  match fields with
  | [] => d
  | (k0, v) :: rest => if k0 = k then v else dictGet rest k d

/-- Model of the attribute access `x.get(key, default)`: succeeds only
on a JSON object (a Python dict); on any other value Python raises
`AttributeError`. -/
def pyGet (j : Json) (k : String) (d : Json) : Except PyError Json :=
  match j with
  | Json.obj fields => Except.ok (dictGet fields k d)
  | _ => Except.error (PyError.exception "AttributeError: no attribute get")

/-- Model of iterating a JSON value the way Python iterates the
corresponding object: a list yields its elements, a dict its keys, a
string its one-character strings; other values raise `TypeError`. -/
def pyIter (j : Json) : Except PyError (List Json) :=
  match j with
  | Json.arr elems => Except.ok elems
  | Json.obj fields => Except.ok (fields.map fun kv => Json.str kv.1)
  | Json.str s => Except.ok (s.data.map fun c => Json.str (String.mk [c]))
  | _ => Except.error (PyError.exception "TypeError: not iterable")

/-- Python truthiness of a JSON value: `None`, `False`, zero, and
empty strings and containers are falsy. -/
def truthy : Json → Bool
  | Json.null => false
  | Json.bool b => b
  | Json.num n => n != 0
  | Json.str s => !s.isEmpty
  | Json.arr elems => !elems.isEmpty
  | Json.obj fields => !fields.isEmpty

/-- Model of `fetch_prefixes` after the HTTP layer: the argument is
the outcome of `json.load(resp)` (`Except.error` when the body is
invalid JSON — `json.JSONDecodeError` is an `Exception` and
propagates). The function evaluates
`data.get("data", {}).get("prefixes", [])`, takes each entry's
`prefix` value (`p.get("prefix")`, default `None`), and keeps only the
truthy ones. -/
def fetchPrefixes (parsed : Except PyError Json) : Except PyError (List Json) :=
  match parsed with
  | Except.error e => Except.error e
  | Except.ok data =>
    match pyGet data "data" (Json.obj []) with
    | Except.error e => Except.error e
    | Except.ok d =>
      match pyGet d "prefixes" (Json.arr []) with
      | Except.error e => Except.error e
      | Except.ok pv =>
        match pyIter pv with
        | Except.error e => Except.error e
        | Except.ok items =>
          match items.mapM (fun p => pyGet p "prefix" Json.null) with
          | Except.error e => Except.error e
          | Except.ok ps => Except.ok (ps.filter truthy)

theorem fetchPrefixes_invalid_json_cex :
    fetchPrefixes (Except.error (PyError.exception
        "json.decoder.JSONDecodeError: Expecting value")) =
      Except.error (PyError.exception
        "json.decoder.JSONDecodeError: Expecting value") := rfl

lemma dictGet_absent {fields : List (String × Json)} {k : String} {d : Json}
    (h : ∀ kv ∈ fields, kv.1 ≠ k) : dictGet fields k d = d := by
  induction fields with
  | nil => rfl
  | cons kv rest ih =>
    obtain ⟨k0, v⟩ := kv
    have hne : k0 ≠ k := h (k0, v) (List.mem_cons_self _ _)
    simp only [dictGet, if_neg hne]
    exact ih fun kv2 hm => h kv2 (List.mem_cons_of_mem _ hm)

lemma mapM_pyGet_objs (objs : List (List (String × Json))) :
    (objs.map Json.obj).mapM (fun p => pyGet p "prefix" Json.null) =
      Except.ok (objs.map fun kvs => dictGet kvs "prefix" Json.null) := by
  induction objs with
  | nil => rfl
  | cons kvs rest ih =>
    simp only [List.map_cons, List.mapM_cons, ih]
    rfl

/-- C7 amended: invalid JSON is not treated as an empty prefix list
but propagates as an error; a JSON object body missing the `data` or
`prefixes` field yields the empty prefix list; and entries whose
`prefix` value is missing or empty are filtered out of the result. -/
theorem fetchPrefixes_malformed (e : PyError) (fields fields2 : List (String × Json))
    (objs : List (List (String × Json))) :
    fetchPrefixes (Except.error e) = Except.error e ∧
    ((∀ kv ∈ fields, kv.1 ≠ "data") →
      fetchPrefixes (Except.ok (Json.obj fields)) = Except.ok []) ∧
    ((∀ kv ∈ fields2, kv.1 ≠ "prefixes") →
      fetchPrefixes (Except.ok (Json.obj [("data", Json.obj fields2)])) = Except.ok []) ∧
    fetchPrefixes (Except.ok (Json.obj [("data",
        Json.obj [("prefixes", Json.arr (objs.map Json.obj))])])) =
      Except.ok ((objs.map fun kvs => dictGet kvs "prefix" Json.null).filter truthy) := by
  refine ⟨rfl, ?_, ?_, ?_⟩
  · intro habs
    simp only [fetchPrefixes, pyGet, dictGet_absent habs]
    rfl
  · intro habs
    rw [show fetchPrefixes (Except.ok (Json.obj [("data", Json.obj fields2)])) =
        (match pyIter (dictGet fields2 "prefixes" (Json.arr [])) with
          | Except.error e2 => Except.error e2
          | Except.ok items =>
            match items.mapM (fun p => pyGet p "prefix" Json.null) with
            | Except.error e2 => Except.error e2
            | Except.ok ps => Except.ok (ps.filter truthy)) from rfl]
    rw [dictGet_absent habs]
    rfl
  · rw [show fetchPrefixes (Except.ok (Json.obj [("data",
        Json.obj [("prefixes", Json.arr (objs.map Json.obj))])])) =
        (match (objs.map Json.obj).mapM (fun p => pyGet p "prefix" Json.null) with
          | Except.error e2 => Except.error e2
          | Except.ok ps => Except.ok (ps.filter truthy)) from rfl]
    rw [mapM_pyGet_objs]

theorem fetchPrefixes_malformed_witness :
    fetchPrefixes (Except.ok (Json.obj [])) = Except.ok [] :=
  (fetchPrefixes_malformed (PyError.exception "x") [] [] []).2.1
    (fun kv h => absurd h (List.not_mem_nil kv))
